import Mathlib

/-! AbstractTable: the derivation pipeline and the event handlers

A shallow embedding of `src/AbstractTable.js`: the sort, search, filter and
pagination pipeline, the handlers that update the component state, the column
reordering and the text of the CSV export.
-/

namespace AbstractTable

/-! ## Values, rows and columns -/

/-- A JavaScript value held in a row field. `num n` is an integer-valued number
in the range where `toString()` prints plain decimal digits, `nan` is `NaN`,
and `obj repr` is any other truthy value (an object, an array, a non-integral
number) whose `toString()` returns `repr`. -/
inductive JSValue where
  | undefined
  | null
  | bool (b : Bool)
  | num (n : Int)
  | nan
  | str (s : String)
  | obj (repr : String)
  deriving DecidableEq, Repr

/-- A row is a plain object, given by its own properties; the first binding of a key
is the one read. -/
abbrev Row := List (String × JSValue)

/-- The properties a plain object inherits from `Object.prototype`: the built-in
functions, each with the text its `toString()` returns, and `__proto__`, which reads
as the prototype object itself. -/
def objectPrototype : List (String × JSValue) :=
  [("constructor", JSValue.obj "function Object() \x7b [native code] \x7d"),
   ("__defineGetter__", JSValue.obj "function __defineGetter__() \x7b [native code] \x7d"),
   ("__defineSetter__", JSValue.obj "function __defineSetter__() \x7b [native code] \x7d"),
   ("hasOwnProperty", JSValue.obj "function hasOwnProperty() \x7b [native code] \x7d"),
   ("__lookupGetter__", JSValue.obj "function __lookupGetter__() \x7b [native code] \x7d"),
   ("__lookupSetter__", JSValue.obj "function __lookupSetter__() \x7b [native code] \x7d"),
   ("isPrototypeOf", JSValue.obj "function isPrototypeOf() \x7b [native code] \x7d"),
   ("propertyIsEnumerable",
     JSValue.obj "function propertyIsEnumerable() \x7b [native code] \x7d"),
   ("toString", JSValue.obj "function toString() \x7b [native code] \x7d"),
   ("valueOf", JSValue.obj "function valueOf() \x7b [native code] \x7d"),
   ("__proto__", JSValue.obj "[object Object]"),
   ("toLocaleString", JSValue.obj "function toLocaleString() \x7b [native code] \x7d")]

/-- Property read `row[key]`: the row's own field, else the property inherited from
`Object.prototype`, else `undefined`. -/
def Row.get (row : Row) (key : String) : JSValue :=
  match row.lookup key with
  | some v => v
  | none =>
    match objectPrototype.lookup key with
    | some v => v
    | none => JSValue.undefined

/-- JavaScript truthiness: `undefined`, `null`, `false`, `0`, `NaN` and `""` are falsy. -/
def truthy : JSValue → Bool
  | JSValue.undefined => false
  | JSValue.null => false
  | JSValue.bool b => b
  | JSValue.num n => n != 0
  | JSValue.nan => false
  | JSValue.str s => s != ""
  | JSValue.obj _ => true

/-- The expression `v || ""`. -/
def orEmpty (v : JSValue) : JSValue :=
  if truthy v then v else JSValue.str ""

/-- The method call `v.toString()`. It is only ever applied to `v || ""`, which is
never `undefined` or `null` (where the call would throw); those two cases carry the
text `String(v)` gives. -/
def jsToString : JSValue → String
  | JSValue.undefined => "undefined"
  | JSValue.null => "null"
  | JSValue.bool b => if b then "true" else "false"
  | JSValue.num n => toString n
  | JSValue.nan => "NaN"
  | JSValue.str s => s
  | JSValue.obj repr => repr

/-- A column accessor: a field key, or a function. A function is identified by its
reference `ref` (equality of function values is reference equality) and carries its
source text `src`, which is the property key it turns into when used in `row[accessor]`. -/
inductive Accessor where
  | key (k : String)
  | fn (ref : Nat) (src : String)
  deriving DecidableEq, Repr

/-- The property key an accessor denotes inside `row[accessor]`. -/
def Accessor.propertyKey : Accessor → String
  | Accessor.key k => k
  | Accessor.fn _ src => src

/-- Truthiness of an accessor: only the empty string key is falsy. -/
def Accessor.truthy : Accessor → Bool
  | Accessor.key k => k != ""
  | Accessor.fn _ _ => true

/-- A column descriptor `{ accessor, Header }`. -/
structure Column where
  accessor : Accessor
  Header : String
  deriving DecidableEq, Repr

/-- The sort configuration `{ key, direction }`. -/
structure SortConfig where
  key : Accessor
  direction : String
  deriving DecidableEq, Repr

/-! ## String comparison -/

/-- UTF-16 code units of one character. -/
def utf16Units (c : Char) : List Nat :=
  if c.toNat < 0x10000 then [c.toNat]
  else [0xD800 + (c.toNat - 0x10000) / 0x400, 0xDC00 + (c.toNat - 0x10000) % 0x400]

/-- UTF-16 code units of a string, the sequence JavaScript compares. -/
def utf16 (s : String) : List Nat :=
  s.data.flatMap utf16Units

/-- Lexicographic strict order on code-unit sequences. -/
def unitsLt : List Nat → List Nat → Bool
  | [], [] => false
  | [], _ :: _ => true
  | _ :: _, [] => false
  | a :: as, b :: bs => if a < b then true else if b < a then false else unitsLt as bs

/-- The comparison `s < t` of two strings. -/
def jsLt (s t : String) : Bool :=
  unitsLt (utf16 s) (utf16 t)

/-! ## Sorting -/

/-- The string `(a[sortConfig.key] || "").toString()` the comparator reads from a row. -/
def sortKey (sortConfig : SortConfig) (a : Row) : String :=
  jsToString (orEmpty (a.get sortConfig.key.propertyKey))

/-- The comparator passed to `sort`. -/
def compareRows (sortConfig : SortConfig) (a b : Row) : Int :=
  if jsLt (sortKey sortConfig a) (sortKey sortConfig b) then
    (if sortConfig.direction = "ascending" then -1 else 1)
  else if jsLt (sortKey sortConfig b) (sortKey sortConfig a) then
    (if sortConfig.direction = "ascending" then 1 else -1)
  else 0

/-- Insert `x` in front of the first element it does not compare greater than. -/
def insertSorted {α : Type} (cmp : α → α → Int) (x : α) : List α → List α
  | [] => [x]
  | y :: ys => if cmp x y ≤ 0 then x :: y :: ys else y :: insertSorted cmp x ys

/-- `Array.prototype.sort(cmp)`: a stable sort, here by insertion from the right. -/
def jsSort {α : Type} (cmp : α → α → Int) : List α → List α
  | [] => []
  | x :: xs => insertSorted cmp x (jsSort cmp xs)

/-- The memoised `sortedData`: a sorted copy when a sort key is set, else a copy. -/
def sortedData (data : List Row) (sortConfig : SortConfig) : List Row :=
  if sortConfig.key.truthy then jsSort (compareRows sortConfig) data else data

/-! ## Search and column filters -/

/-- `s.includes(searchString)`: `searchString` occurs in `s` as a contiguous run. -/
def includes (s searchString : String) : Bool :=
  s.data.tails.any (fun t => searchString.data.isPrefixOf t)

/-- `Object.keys(filters)`. -/
def objectKeys (filters : List (String × String)) : List String :=
  filters.map (fun p => p.1)

/-- The read `filters[key]` for a key of the filter map. Every stored value is a
string, the value of a text input. -/
def filterValue (filters : List (String × String)) (key : String) : String :=
  (filters.lookup key).getD ""

/-- The text `(item[column.accessor] || "").toString().toLowerCase()` the search term is
looked for in. `toLowerCase` is the string method of that name, a parameter here. -/
def searchText (toLowerCase : String → String) (item : Row) (column : Column) : String :=
  toLowerCase (jsToString (orEmpty (item.get column.accessor.propertyKey)))

/-- The text `(item[key] || "").toString().toLowerCase()` a column filter is looked for in. -/
def filterText (toLowerCase : String → String) (item : Row) (key : String) : String :=
  toLowerCase (jsToString (orEmpty (item.get key)))

/-- The first `filter` callback: some column of the row contains the search term. -/
def searchMatch (toLowerCase : String → String) (columns : List Column)
    (searchTerm : String) (item : Row) : Bool :=
  columns.any (fun column =>
    includes (searchText toLowerCase item column) (toLowerCase searchTerm))

/-- The second `filter` callback: every key of the filter map matches the row. -/
def filterMatch (toLowerCase : String → String) (filters : List (String × String))
    (item : Row) : Bool :=
  (objectKeys filters).all (fun key =>
    includes (filterText toLowerCase item key) (toLowerCase (filterValue filters key)))

/-- The derived `filteredData`: the sorted rows through both filters. -/
def filteredData (toLowerCase : String → String) (columns : List Column) (data : List Row)
    (sortConfig : SortConfig) (searchTerm : String) (filters : List (String × String)) :
    List Row :=
  ((sortedData data sortConfig).filter (searchMatch toLowerCase columns searchTerm)).filter
    (filterMatch toLowerCase filters)

/-! ## Pagination -/

/-- The constant `itemsPerPage`. -/
def itemsPerPage : Nat := 10

/-- A relative index of `slice` and `splice` resolved against the length: a negative
index counts from the end, and the result is clamped to `[0, len]`. -/
def relativeIndex (len : Nat) (i : Int) : Nat :=
  if i < 0 then ((len : Int) + i).toNat else min i.toNat len

/-- `xs.slice(start, stop)`. -/
def slice {α : Type} (xs : List α) (start stop : Int) : List α :=
  (xs.drop (relativeIndex xs.length start)).take
    (relativeIndex xs.length stop - relativeIndex xs.length start)

/-- The derived `paginatedData`. -/
def paginatedData (filtered : List Row) (currentPage : Int) : List Row :=
  slice filtered ((currentPage - 1) * itemsPerPage) (currentPage * itemsPerPage)

/-- The derived `totalPages = Math.ceil(filteredData.length / itemsPerPage)`, the
quotient rounded up. -/
def totalPages (filtered : List Row) : Nat :=
  (filtered.length + (itemsPerPage - 1)) / itemsPerPage

/-! ## Component state and handlers -/

/-- The state slices of the component. -/
structure State where
  sortConfig : SortConfig
  searchTerm : String
  currentPage : Int
  filters : List (String × String)
  showFilters : Bool
  showModal : Bool
  visibleColumns : List Accessor
  orderedColumns : List Column
  deriving DecidableEq, Repr

/-- The state of the first render. -/
def initialState (columns : List Column) : State :=
  { sortConfig := { key := Accessor.key "", direction := "" }
    searchTerm := ""
    currentPage := 1
    filters := []
    showFilters := false
    showModal := false
    visibleColumns := columns.map (fun col => col.accessor)
    orderedColumns := columns }

/-- The handler `requestSort`, as the new sort configuration. -/
def requestSort (sortConfig : SortConfig) (key : Accessor) : SortConfig :=
  { key := key
    direction :=
      if sortConfig.key = key ∧ sortConfig.direction = "ascending" then "descending"
      else "ascending" }

/-- The object `{ ...prevFilters, [column]: value }`: an existing key keeps its place.
The order of the keys (an object lists integer-like keys first) is not modelled; no
reader of the filter map depends on it. -/
def objectSet (prevFilters : List (String × String)) (column value : String) :
    List (String × String) :=
  if prevFilters.any (fun p => p.1 == column) then
    prevFilters.map (fun p => if p.1 == column then (p.1, value) else p)
  else prevFilters ++ [(column, value)]

/-- The handler `handleSearch`, given `event.target.value`. -/
def handleSearch (st : State) (value : String) : State :=
  { st with searchTerm := value, currentPage := 1 }

/-- The handler `handleFilterChange`. -/
def handleFilterChange (st : State) (column : Accessor) (value : String) : State :=
  { st with filters := objectSet st.filters column.propertyKey value, currentPage := 1 }

/-- The handler `handlePageChange`. -/
def handlePageChange (st : State) (pageNumber : Int) : State :=
  { st with currentPage := pageNumber }

/-- The updater inside `handleColumnVisibilityChange`. -/
def handleColumnVisibilityChange (prevColumns : List Accessor) (column : Accessor) :
    List Accessor :=
  if prevColumns.contains column then prevColumns.filter (fun col => col != column)
  else prevColumns ++ [column]

/-! ## Column reordering -/

/-- `arr.splice(start, deleteCount, ...items)`: the removed elements and the array after. -/
def splice {α : Type} (arr : List α) (start deleteCount : Int) (items : List α) :
    List α × List α :=
  let s := relativeIndex arr.length start
  let d := min (max deleteCount 0).toNat (arr.length - s)
  ((arr.drop s).take d, arr.take s ++ items ++ arr.drop (s + d))

/-- A drag location `{ index }`. -/
structure DragLocation where
  index : Int
  deriving DecidableEq, Repr

/-- The drop result handed to `onDragEnd`; `destination` is absent for a drop outside. -/
structure DropResult where
  source : DragLocation
  destination : Option DragLocation
  deriving DecidableEq, Repr

/-- The handler `onDragEnd`, as the new column order. When the source index lies
outside the array nothing is removed and `undefined` would be inserted, which is
no column: that case is `none`. -/
def onDragEnd (orderedColumns : List Column) (result : DropResult) : Option (List Column) :=
  match result.destination with
  | none => some orderedColumns
  | some destination =>
    let first := splice orderedColumns result.source.index 1 []
    match first.1.head? with
    | none => none
    | some removed => some (splice first.2 destination.index 0 [removed]).2

/-! ## CSV export and cell text -/

/-- `s.replace(/"/g, '""')`: every double quote doubled. -/
def replaceQuotes (s : String) : String :=
  String.mk (s.data.flatMap (fun c => if c = Char.ofNat 34 then [c, c] else [c]))

/-- One exported cell, `(row[col.accessor] || "").toString().replace(/"/g, '""')`. -/
def csvCell (row : Row) (col : Column) : String :=
  replaceQuotes (jsToString (orEmpty (row.get col.accessor.propertyKey)))

/-- The text `csvContent` built by `exportToCSV` in state `st` for the input `data`. -/
def exportToCSV (st : State) (data : List Row) : String :=
  let headers := ",".intercalate
    ((st.orderedColumns.filter (fun col => st.visibleColumns.contains col.accessor)).map
      (fun col => col.Header))
  let rows := data.map (fun row => ",".intercalate
    ((st.orderedColumns.filter (fun col => st.visibleColumns.contains col.accessor)).map
      (fun col => csvCell row col)))
  "\n".intercalate (headers :: rows)

/-- The text of a table cell. `callAccessor ref item` is the result of calling the
function accessor `ref` on the row. -/
def cellText (callAccessor : Nat → Row → String) (item : Row) (column : Column) : String :=
  match column.accessor with
  | Accessor.fn ref _ => callAccessor ref item
  | Accessor.key k => jsToString (orEmpty (item.get k))

/-- The derived `filteredData` in state `st`. -/
def filteredDataOf (toLowerCase : String → String) (columns : List Column) (data : List Row)
    (st : State) : List Row :=
  filteredData toLowerCase columns data st.sortConfig st.searchTerm st.filters

/-! ## The wording of the claims, for comparison with the code -/

/-- The text of a row at a key as the claims word it: the value of the row's field
coerced to a string, `String(v)`, and the empty string when the row has no such field. -/
def claimedText (row : Row) (key : String) : String :=
  match row.lookup key with
  | some v => jsToString v
  | none => ""

/-- The text of a row at a key as the amended claims word it: the value read is the
row's own field, else the property inherited from `Object.prototype`, else nothing; the
text is empty when nothing is read or the value read is falsy, else the text of the
value. -/
def coercedText (row : Row) (key : String) : String :=
  match row.lookup key with
  | some v => if truthy v then jsToString v else ""
  | none =>
    match objectPrototype.lookup key with
    | some p => if truthy p then jsToString p else ""
    | none => ""

/-- The row passes the search and the column filters, for a given reading `text` of the
coerced value: some column's lower-cased text contains the lower-cased search term, and
for every entry of the filter map the lower-cased text at its key contains its
lower-cased filter value. -/
def rowSatisfies (text : Row → String → String) (toLowerCase : String → String)
    (columns : List Column) (searchTerm : String) (filters : List (String × String))
    (r : Row) : Bool :=
  columns.any (fun c =>
      includes (toLowerCase (text r c.accessor.propertyKey)) (toLowerCase searchTerm)) &&
    filters.all (fun kv =>
      includes (toLowerCase (text r kv.1)) (toLowerCase kv.2))

/-- Every double quote of a character sequence doubled. -/
def doubleQuotes : List Char → List Char
  | [] => []
  | c :: cs =>
    if c = Char.ofNat 34 then Char.ofNat 34 :: Char.ofNat 34 :: doubleQuotes cs
    else c :: doubleQuotes cs

/-- The visible columns in display order. -/
def visibleInOrder (orderedColumns : List Column) (visibleColumns : List Accessor) :
    List Column :=
  orderedColumns.filter (fun col => decide (col.accessor ∈ visibleColumns))

/-- The header line: the labels of the given columns joined by commas. -/
def csvHeaderLine (cols : List Column) : String :=
  ",".intercalate (cols.map (fun col => col.Header))

/-- The line of one row, for a given reading `text` of the coerced value: its texts at
the given columns, quotes doubled, joined by commas. -/
def csvRowLine (text : Row → String → String) (cols : List Column) (row : Row) : String :=
  ",".intercalate (cols.map (fun col =>
    String.mk (doubleQuotes (text row col.accessor.propertyKey).data)))

/-- The CSV text as the claim words it, for a given reading `text` of the coerced
value: the header line, then one line per row of the input. -/
def csvSpec (text : Row → String → String) (orderedColumns : List Column)
    (visibleColumns : List Accessor) (data : List Row) : String :=
  "\n".intercalate
    (csvHeaderLine (visibleInOrder orderedColumns visibleColumns) ::
      data.map (csvRowLine text (visibleInOrder orderedColumns visibleColumns)))

/-- Lower-casing of the letters `A` to `Z`, the action of `toLowerCase` on ASCII
text; the concrete examples below are evaluated with it. -/
def asciiLower (s : String) : String :=
  String.mk (s.data.map Char.toLower)

/-! ## Coercion -/

/-- The value `v || ""` is never `undefined` or `null`, so `toString()` never throws. -/
theorem orEmpty_defined (v : JSValue) :
    orEmpty v ≠ JSValue.undefined ∧ orEmpty v ≠ JSValue.null := by
  unfold orEmpty
  split
  · rename_i h
    cases v <;> simp [truthy] at h ⊢
  · simp

/-! ## The order on strings -/

theorem char_toNat_valid (c : Char) :
    c.toNat < 0xD800 ∨ (0xDFFF < c.toNat ∧ c.toNat < 0x110000) := by
  have h := c.valid
  simp [UInt32.isValidChar, Nat.isValidChar] at h
  exact h

theorem char_eq_of_toNat_eq {c d : Char} (h : c.toNat = d.toNat) : c = d :=
  Char.ext (UInt32.ext h)

theorem utf16Units_append_inj (c d : Char) (r₁ r₂ : List Nat)
    (h : utf16Units c ++ r₁ = utf16Units d ++ r₂) : c = d ∧ r₁ = r₂ := by
  have hc := char_toNat_valid c
  have hd := char_toNat_valid d
  unfold utf16Units at h
  by_cases h1 : c.toNat < 0x10000 <;> by_cases h2 : d.toNat < 0x10000
  · simp only [h1, h2, if_true, List.cons_append, List.nil_append, List.cons.injEq] at h
    exact ⟨char_eq_of_toNat_eq h.1, h.2⟩
  · simp only [h1, h2, if_true, if_false, List.cons_append, List.nil_append,
      List.cons.injEq] at h
    omega
  · simp only [h1, h2, if_true, if_false, List.cons_append, List.nil_append,
      List.cons.injEq] at h
    omega
  · simp only [h1, h2, if_false, List.cons_append, List.nil_append, List.cons.injEq] at h
    refine ⟨char_eq_of_toNat_eq ?_, h.2.2⟩
    omega

theorem utf16Units_ne_nil (c : Char) : utf16Units c ≠ [] := by
  unfold utf16Units
  split <;> simp

theorem flatMap_utf16Units_inj :
    ∀ l₁ l₂ : List Char, l₁.flatMap utf16Units = l₂.flatMap utf16Units → l₁ = l₂
  | [], [], _ => rfl
  | [], d :: l₂, h => by
    simp only [List.flatMap_nil, List.flatMap_cons] at h
    have hne := utf16Units_ne_nil d
    cases hd : utf16Units d with
    | nil => exact absurd hd hne
    | cons a as => rw [hd] at h; simp at h
  | c :: l₁, [], h => by
    simp only [List.flatMap_nil, List.flatMap_cons] at h
    have hne := utf16Units_ne_nil c
    cases hc : utf16Units c with
    | nil => exact absurd hc hne
    | cons a as => rw [hc] at h; simp at h
  | c :: l₁, d :: l₂, h => by
    simp only [List.flatMap_cons] at h
    obtain ⟨hcd, hrest⟩ := utf16Units_append_inj c d _ _ h
    rw [hcd, flatMap_utf16Units_inj l₁ l₂ hrest]

/-- Distinct strings have distinct code-unit sequences. -/
theorem utf16_injective {s t : String} (h : utf16 s = utf16 t) : s = t := by
  cases s with
  | mk ds =>
    cases t with
    | mk dt =>
      have := flatMap_utf16Units_inj ds dt h
      rw [this]

theorem unitsLt_irrefl : ∀ l : List Nat, unitsLt l l = false
  | [] => rfl
  | a :: as => by simp [unitsLt, unitsLt_irrefl as]

theorem unitsLt_asymm : ∀ l₁ l₂ : List Nat, unitsLt l₁ l₂ = true → unitsLt l₂ l₁ = false
  | [], [], h => by simp [unitsLt] at h
  | [], _ :: _, _ => by simp [unitsLt]
  | _ :: _, [], h => by simp [unitsLt] at h
  | a :: as, b :: bs, h => by
    unfold unitsLt at h ⊢
    by_cases h1 : a < b
    · have h2 : ¬ b < a := by omega
      simp [h1, h2]
    · by_cases h2 : b < a
      · simp [h1, h2] at h
      · simp only [h1, h2, if_false] at h ⊢
        exact unitsLt_asymm as bs h

theorem unitsLt_trichotomy :
    ∀ l₁ l₂ : List Nat, unitsLt l₁ l₂ = false → unitsLt l₂ l₁ = false → l₁ = l₂
  | [], [], _, _ => rfl
  | [], _ :: _, h, _ => by simp [unitsLt] at h
  | _ :: _, [], _, h => by simp [unitsLt] at h
  | a :: as, b :: bs, h, h' => by
    unfold unitsLt at h h'
    by_cases h1 : a < b
    · simp [h1] at h
    · by_cases h2 : b < a
      · simp [h2] at h'
      · simp only [h1, h2, if_false] at h h'
        have hab : a = b := by omega
        rw [hab, unitsLt_trichotomy as bs h h']

theorem unitsLt_trans :
    ∀ l₁ l₂ l₃ : List Nat, unitsLt l₁ l₂ = true → unitsLt l₂ l₃ = true → unitsLt l₁ l₃ = true
  | [], [], _, h, _ => by simp [unitsLt] at h
  | [], _ :: _, [], _, h => by simp [unitsLt] at h
  | [], _ :: _, _ :: _, _, _ => by simp [unitsLt]
  | _ :: _, [], _, h, _ => by simp [unitsLt] at h
  | _ :: _, _ :: _, [], _, h => by simp [unitsLt] at h
  | a :: as, b :: bs, c :: cs, h, h' => by
    unfold unitsLt at h h' ⊢
    by_cases hab : a < b
    · by_cases hbc : b < c
      · have : a < c := by omega
        simp [this]
      · by_cases hcb : c < b
        · simp [hbc, hcb] at h'
        · have : a < c := by omega
          simp [this]
    · by_cases hba : b < a
      · simp [hab, hba] at h
      · simp only [hab, hba, if_false] at h
        by_cases hbc : b < c
        · have : a < c := by omega
          simp [this]
        · by_cases hcb : c < b
          · simp [hbc, hcb] at h'
          · simp only [hbc, hcb, if_false] at h'
            have h1 : ¬ a < c := by omega
            have h2 : ¬ c < a := by omega
            simp only [h1, h2, if_false]
            exact unitsLt_trans as bs cs h h'

theorem jsLt_irrefl (s : String) : jsLt s s = false :=
  unitsLt_irrefl _

theorem jsLt_asymm {s t : String} (h : jsLt s t = true) : jsLt t s = false :=
  unitsLt_asymm _ _ h

theorem jsLt_trans {s t u : String} (h : jsLt s t = true) (h' : jsLt t u = true) :
    jsLt s u = true :=
  unitsLt_trans _ _ _ h h'

theorem jsLt_trichotomy {s t : String} (h : jsLt s t = false) (h' : jsLt t s = false) :
    s = t :=
  utf16_injective (unitsLt_trichotomy _ _ h h')

/-- Not greater means smaller or equal. -/
theorem jsLt_or_eq_of_not_gt {s t : String} (h : jsLt t s = false) :
    jsLt s t = true ∨ s = t := by
  cases hst : jsLt s t with
  | true => exact Or.inl rfl
  | false => exact Or.inr (jsLt_trichotomy hst h)

/-! ## The stable sort -/

theorem insertSorted_perm {α : Type} (cmp : α → α → Int) (x : α) :
    ∀ l : List α, (insertSorted cmp x l).Perm (x :: l)
  | [] => List.Perm.refl _
  | y :: ys => by
    unfold insertSorted
    split
    · exact List.Perm.refl _
    · exact ((insertSorted_perm cmp x ys).cons y).trans (List.Perm.swap x y ys)

theorem jsSort_perm {α : Type} (cmp : α → α → Int) : ∀ l : List α, (jsSort cmp l).Perm l
  | [] => List.Perm.refl _
  | x :: xs => (insertSorted_perm cmp x (jsSort cmp xs)).trans ((jsSort_perm cmp xs).cons x)

theorem insertSorted_pairwise {α : Type} (cmp : α → α → Int)
    (htot : ∀ a b, cmp a b ≤ 0 ∨ cmp b a ≤ 0)
    (htr : ∀ a b c, cmp a b ≤ 0 → cmp b c ≤ 0 → cmp a c ≤ 0) (x : α) :
    ∀ l : List α, l.Pairwise (fun a b => cmp a b ≤ 0) →
      (insertSorted cmp x l).Pairwise (fun a b => cmp a b ≤ 0)
  | [], _ => by simp [insertSorted]
  | y :: ys, h => by
    unfold insertSorted
    have hy := List.pairwise_cons.mp h
    split
    · rename_i hxy
      refine List.pairwise_cons.mpr ⟨?_, h⟩
      intro z hz
      rcases List.mem_cons.mp hz with hz | hz
      · rw [hz]; exact hxy
      · exact htr x y z hxy (hy.1 z hz)
    · rename_i hxy
      refine List.pairwise_cons.mpr ⟨?_, insertSorted_pairwise cmp htot htr x ys hy.2⟩
      intro z hz
      have hz' := (insertSorted_perm cmp x ys).mem_iff.mp hz
      rcases List.mem_cons.mp hz' with hz' | hz'
      · rw [hz']
        rcases htot x y with h1 | h1
        · exact absurd h1 hxy
        · exact h1
      · exact hy.1 z hz'

theorem jsSort_pairwise {α : Type} (cmp : α → α → Int)
    (htot : ∀ a b, cmp a b ≤ 0 ∨ cmp b a ≤ 0)
    (htr : ∀ a b c, cmp a b ≤ 0 → cmp b c ≤ 0 → cmp a c ≤ 0) :
    ∀ l : List α, (jsSort cmp l).Pairwise (fun a b => cmp a b ≤ 0)
  | [] => List.Pairwise.nil
  | x :: xs => insertSorted_pairwise cmp htot htr x _ (jsSort_pairwise cmp htot htr xs)

/-- Inserting keeps the order among the elements of a class that compare equal. -/
theorem filter_insertSorted {α : Type} (cmp : α → α → Int) (p : α → Bool)
    (hp : ∀ a b, p a = true → p b = true → cmp a b ≤ 0) (x : α) :
    ∀ l : List α, (insertSorted cmp x l).filter p = (x :: l).filter p
  | [] => rfl
  | y :: ys => by
    unfold insertSorted
    split
    · rfl
    · rename_i hxy
      rw [List.filter_cons, filter_insertSorted cmp p hp x ys]
      cases hpx : p x with
      | false => simp [List.filter_cons, hpx]
      | true =>
        cases hpy : p y with
        | false => simp [List.filter_cons, hpx, hpy]
        | true => exact absurd (hp x y hpx hpy) hxy

theorem filter_jsSort {α : Type} (cmp : α → α → Int) (p : α → Bool)
    (hp : ∀ a b, p a = true → p b = true → cmp a b ≤ 0) :
    ∀ l : List α, (jsSort cmp l).filter p = l.filter p
  | [] => rfl
  | x :: xs => by
    show (insertSorted cmp x (jsSort cmp xs)).filter p = (x :: xs).filter p
    rw [filter_insertSorted cmp p hp x, List.filter_cons, List.filter_cons,
      filter_jsSort cmp p hp xs]

/-! ## The comparator -/

theorem compareRows_ascending (cfg : SortConfig) (h : cfg.direction = "ascending")
    (a b : Row) : compareRows cfg a b ≤ 0 ↔ jsLt (sortKey cfg b) (sortKey cfg a) = false := by
  unfold compareRows
  cases h1 : jsLt (sortKey cfg a) (sortKey cfg b) with
  | true => simp [h, jsLt_asymm h1]
  | false =>
    cases h2 : jsLt (sortKey cfg b) (sortKey cfg a) with
    | true => simp [h]
    | false => simp

theorem compareRows_descending (cfg : SortConfig) (h : cfg.direction ≠ "ascending")
    (a b : Row) : compareRows cfg a b ≤ 0 ↔ jsLt (sortKey cfg a) (sortKey cfg b) = false := by
  unfold compareRows
  cases h1 : jsLt (sortKey cfg a) (sortKey cfg b) with
  | true => simp [h]
  | false =>
    cases h2 : jsLt (sortKey cfg b) (sortKey cfg a) with
    | true => simp [h]
    | false => simp

theorem compareRows_total (cfg : SortConfig) (a b : Row) :
    compareRows cfg a b ≤ 0 ∨ compareRows cfg b a ≤ 0 := by
  by_cases h : cfg.direction = "ascending"
  · rw [compareRows_ascending cfg h, compareRows_ascending cfg h]
    cases h1 : jsLt (sortKey cfg b) (sortKey cfg a) with
    | true => exact Or.inr (jsLt_asymm h1)
    | false => exact Or.inl rfl
  · rw [compareRows_descending cfg h, compareRows_descending cfg h]
    cases h1 : jsLt (sortKey cfg a) (sortKey cfg b) with
    | true => exact Or.inr (jsLt_asymm h1)
    | false => exact Or.inl rfl

theorem jsLt_false_trans {s t u : String} (h : jsLt t s = false) (h' : jsLt u t = false) :
    jsLt u s = false := by
  rcases jsLt_or_eq_of_not_gt h with h1 | h1
  · rcases jsLt_or_eq_of_not_gt h' with h2 | h2
    · exact jsLt_asymm (jsLt_trans h1 h2)
    · rw [← h2]; exact h
  · rw [h1]; exact h'

theorem compareRows_trans (cfg : SortConfig) (a b c : Row)
    (hab : compareRows cfg a b ≤ 0) (hbc : compareRows cfg b c ≤ 0) :
    compareRows cfg a c ≤ 0 := by
  by_cases h : cfg.direction = "ascending"
  · rw [compareRows_ascending cfg h] at hab hbc ⊢
    exact jsLt_false_trans hab hbc
  · rw [compareRows_descending cfg h] at hab hbc ⊢
    exact jsLt_false_trans hbc hab

theorem compareRows_eq_key (cfg : SortConfig) (a b : Row)
    (h : sortKey cfg a = sortKey cfg b) : compareRows cfg a b ≤ 0 := by
  unfold compareRows
  rw [h, jsLt_irrefl]
  simp

/-! ## The coerced text of a field -/

theorem orEmpty_text (v : JSValue) :
    jsToString (orEmpty v) = if truthy v then jsToString v else "" := by
  unfold orEmpty
  cases hv : truthy v with
  | true => simp
  | false => simp [jsToString]

/-- The text the code reads, `(row[key] || "").toString()`, is the amended wording. -/
theorem coercedText_eq (r : Row) (k : String) :
    coercedText r k = jsToString (orEmpty (r.get k)) := by
  unfold coercedText Row.get
  cases r.lookup k with
  | some v => simp only [orEmpty_text]
  | none =>
    cases objectPrototype.lookup k with
    | some p => simp only [orEmpty_text]
    | none => simp [orEmpty, truthy, jsToString]

theorem sortKey_eq_coercedText (cfg : SortConfig) (r : Row) :
    sortKey cfg r = coercedText r cfg.key.propertyKey := by
  rw [coercedText_eq]
  rfl

/-! ## Claims about sorting -/

/-- C1 fails as worded, with the key read as `String(v)` and as empty only when the
field is missing: sorted ascending by age, the row whose age is `0` comes before the
row whose age is `-5`, and sorted ascending by `toString`, a row with the field `"a"`
comes before a row without the field, which reads the inherited function. -/
theorem sortedData_claimed_keys_unordered :
    ¬ (sortedData [[("age", JSValue.num (-5))], [("age", JSValue.num 0)]]
        ⟨Accessor.key "age", "ascending"⟩).Pairwise (fun a b =>
          jsLt (claimedText a "age") (claimedText b "age") = true ∨
            claimedText a "age" = claimedText b "age") ∧
    ¬ (sortedData [[("toString", JSValue.str "a")], []]
        ⟨Accessor.key "toString", "ascending"⟩).Pairwise (fun a b =>
          jsLt (claimedText a "toString") (claimedText b "toString") = true ∨
            claimedText a "toString" = claimedText b "toString") := by
  decide

/-- C1, amended: for a non-empty sort key `k` and a direction `d` that is ascending or
descending, `sortedData` is a permutation of `data`; its keys never decrease along the
list when `d` is ascending and never increase when `d` is descending, where the key of
a row is the text of the value read at `k` (own field, else inherited property), empty
when nothing is read or the value is falsy; the rows that share a key keep the order
they have in `data`, also pairwise; and with the empty sort key `sortedData` is
`data`. -/
theorem sortedData_sorted_stable (data : List Row) (k d : String) (hk : k ≠ "")
    (hd : d = "ascending" ∨ d = "descending") :
    (sortedData data ⟨Accessor.key k, d⟩).Perm data ∧
    (sortedData data ⟨Accessor.key k, d⟩).Pairwise (fun a b =>
      if d = "ascending" then
        jsLt (coercedText a k) (coercedText b k) = true ∨ coercedText a k = coercedText b k
      else
        jsLt (coercedText b k) (coercedText a k) = true ∨
          coercedText a k = coercedText b k) ∧
    (∀ s : String,
      (sortedData data ⟨Accessor.key k, d⟩).filter (fun r => decide (coercedText r k = s)) =
        data.filter (fun r => decide (coercedText r k = s))) ∧
    (∀ a b : Row, coercedText a k = coercedText b k →
      List.Sublist [a, b] data → List.Sublist [a, b] (sortedData data ⟨Accessor.key k, d⟩)) ∧
    (∀ r : Row, sortKey ⟨Accessor.key k, d⟩ r = coercedText r k) ∧
    sortedData data ⟨Accessor.key "", d⟩ = data := by
  have hkey : ∀ r : Row, sortKey ⟨Accessor.key k, d⟩ r = coercedText r k :=
    fun r => sortKey_eq_coercedText ⟨Accessor.key k, d⟩ r
  have htruthy : (Accessor.key k).truthy = true := by simp [Accessor.truthy, hk]
  have hsd : sortedData data ⟨Accessor.key k, d⟩ =
      jsSort (compareRows ⟨Accessor.key k, d⟩) data := by
    simp [sortedData, htruthy]
  have hstable : ∀ s : String,
      (sortedData data ⟨Accessor.key k, d⟩).filter (fun r => decide (coercedText r k = s)) =
        data.filter (fun r => decide (coercedText r k = s)) := by
    intro s
    rw [hsd]
    apply filter_jsSort
    intro a b ha hb
    apply compareRows_eq_key
    rw [hkey, hkey, of_decide_eq_true ha, of_decide_eq_true hb]
  refine ⟨?_, ?_, hstable, ?_, hkey, ?_⟩
  · rw [hsd]; exact jsSort_perm _ _
  · rw [hsd]
    have hpw := jsSort_pairwise (compareRows ⟨Accessor.key k, d⟩)
      (compareRows_total _) (compareRows_trans _) data
    refine hpw.imp ?_
    intro a b hab
    rcases hd with hd | hd
    · have hasc : (⟨Accessor.key k, d⟩ : SortConfig).direction = "ascending" := hd
      rw [compareRows_ascending _ hasc, hkey, hkey] at hab
      rw [if_pos hd]
      exact jsLt_or_eq_of_not_gt hab
    · have hne : d ≠ "ascending" := by rw [hd]; decide
      have hdesc : (⟨Accessor.key k, d⟩ : SortConfig).direction ≠ "ascending" := hne
      rw [compareRows_descending _ hdesc, hkey, hkey] at hab
      rw [if_neg hne]
      rcases jsLt_or_eq_of_not_gt hab with h1 | h1
      · exact Or.inl h1
      · exact Or.inr h1.symm
  · intro a b hab hsub
    have h1 := hsub.filter (fun r => decide (coercedText r k = coercedText a k))
    rw [← hstable] at h1
    have h2 : [a, b].filter (fun r => decide (coercedText r k = coercedText a k)) =
        [a, b] := by
      simp [List.filter_cons, hab]
    rw [h2] at h1
    exact h1.trans (List.filter_sublist _)
  · simp [sortedData, Accessor.truthy]

/-- C1 amended, at two rows sorted by name, ascending. -/
theorem sortedData_sorted_stable_witness :
    (sortedData [[("name", JSValue.str "Bob")], [("name", JSValue.str "Al")]]
        ⟨Accessor.key "name", "ascending"⟩).Perm
      [[("name", JSValue.str "Bob")], [("name", JSValue.str "Al")]] ∧
    sortedData [[("name", JSValue.str "Bob")], [("name", JSValue.str "Al")]]
        ⟨Accessor.key "name", "ascending"⟩ =
      [[("name", JSValue.str "Al")], [("name", JSValue.str "Bob")]] :=
  ⟨(sortedData_sorted_stable [[("name", JSValue.str "Bob")], [("name", JSValue.str "Al")]]
      "name" "ascending" (by decide) (Or.inl rfl)).1, by decide⟩

theorem requestSort_first (cfg : SortConfig) (k : Accessor) (h : cfg.key ≠ k) :
    requestSort cfg k = ⟨k, "ascending"⟩ := by
  simp [requestSort, h]

theorem requestSort_second (k : Accessor) :
    requestSort ⟨k, "ascending"⟩ k = ⟨k, "descending"⟩ := by
  simp [requestSort]

theorem map_eq_of_injOn {α β : Type} (f : α → β) :
    ∀ l₁ l₂ : List α, (∀ x ∈ l₁, ∀ y ∈ l₂, f x = f y → x = y) →
      l₁.map f = l₂.map f → l₁ = l₂
  | [], [], _, _ => rfl
  | [], _ :: _, _, h => by simp at h
  | _ :: _, [], _, h => by simp at h
  | a :: as, b :: bs, hinj, h => by
    simp only [List.map_cons, List.cons.injEq] at h
    have hab : a = b := hinj a (List.mem_cons_self _ _) b (List.mem_cons_self _ _) h.1
    have htl : as = bs := map_eq_of_injOn f as bs
      (fun x hx y hy => hinj x (List.mem_cons_of_mem _ hx) y (List.mem_cons_of_mem _ hy)) h.2
    rw [hab, htl]

/-- The keys of the descending order are the keys of the ascending order, reversed. -/
theorem sortKeys_descending_eq_reverse (data : List Row) (k : Accessor) :
    (jsSort (compareRows ⟨k, "descending"⟩) data).map (sortKey ⟨k, "descending"⟩) =
      ((jsSort (compareRows ⟨k, "ascending"⟩) data).map (sortKey ⟨k, "ascending"⟩)).reverse := by
  haveI : IsAntisymm String (fun s t => jsLt s t = false) :=
    ⟨fun _ _ h h' => jsLt_trichotomy h h'⟩
  have hkey : sortKey ⟨k, "descending"⟩ = sortKey ⟨k, "ascending"⟩ := rfl
  apply List.eq_of_perm_of_sorted (r := fun s t => jsLt s t = false)
  · rw [hkey]
    exact ((jsSort_perm _ data).map _).trans
      (((jsSort_perm _ data).map _).symm.trans (List.reverse_perm _).symm)
  · have hpw := jsSort_pairwise (compareRows ⟨k, "descending"⟩)
      (compareRows_total _) (compareRows_trans _) data
    refine List.pairwise_map.mpr (hpw.imp ?_)
    intro a b hab
    have hdir : (⟨k, "descending"⟩ : SortConfig).direction ≠ "ascending" := by
      show "descending" ≠ "ascending"
      decide
    exact (compareRows_descending ⟨k, "descending"⟩ hdir a b).mp hab
  · have hpw := jsSort_pairwise (compareRows ⟨k, "ascending"⟩)
      (compareRows_total _) (compareRows_trans _) data
    refine List.pairwise_reverse.mpr (List.pairwise_map.mpr (hpw.imp ?_))
    intro a b hab
    exact (compareRows_ascending ⟨k, "ascending"⟩ rfl a b).mp hab

/-- Sorting keeps the rows of every key in the order they have in `data`. -/
theorem filter_key_sortedData (data : List Row) (cfg : SortConfig) (s : String) :
    (sortedData data cfg).filter (fun r => decide (coercedText r cfg.key.propertyKey = s)) =
      data.filter (fun r => decide (coercedText r cfg.key.propertyKey = s)) := by
  unfold sortedData
  split
  · apply filter_jsSort
    intro a b ha hb
    apply compareRows_eq_key
    rw [sortKey_eq_coercedText, sortKey_eq_coercedText, of_decide_eq_true ha,
      of_decide_eq_true hb]
  · rfl

/-- C2 fails in two ways: two rows with the same name keep their order in both
directions, so the second order is not the reverse of the first; and for the empty key,
requested from a state sorted by name, both orders are `data` itself. -/
theorem requestSort_twice_not_reverse :
    sortedData [[("id", JSValue.num 1), ("name", JSValue.str "a")],
        [("id", JSValue.num 2), ("name", JSValue.str "a")]]
      (requestSort (requestSort ⟨Accessor.key "", ""⟩ (Accessor.key "name"))
        (Accessor.key "name")) ≠
    (sortedData [[("id", JSValue.num 1), ("name", JSValue.str "a")],
        [("id", JSValue.num 2), ("name", JSValue.str "a")]]
      (requestSort ⟨Accessor.key "", ""⟩ (Accessor.key "name"))).reverse ∧
    sortedData [[("name", JSValue.str "Bob")], [("name", JSValue.str "Al")]]
      (requestSort (requestSort ⟨Accessor.key "name", "ascending"⟩ (Accessor.key ""))
        (Accessor.key "")) ≠
    (sortedData [[("name", JSValue.str "Bob")], [("name", JSValue.str "Al")]]
      (requestSort ⟨Accessor.key "name", "ascending"⟩ (Accessor.key ""))).reverse := by
  decide

/-- C2, amended: let `k` not be the current sort key. When `k` is non-empty, the sort
keys of the rows after the second `requestSort(k)` are the sort keys after the first in
reverse order, the second row order is the reverse of the first when the rows of `data`
have pairwise distinct sort keys, and after either call the rows that share a sort key
keep the order they have in `data`. When `k` is the empty key, the rows after either
call are `data` unchanged. The sort key of a row is the text of the value read at `k`,
empty when nothing is read or the value is falsy. -/
theorem requestSort_twice_reverse (data : List Row) (cfg : SortConfig) (k : Accessor)
    (hne : cfg.key ≠ k) :
    (k.truthy = true →
      (sortedData data (requestSort (requestSort cfg k) k)).map
          (fun r => coercedText r k.propertyKey) =
        ((sortedData data (requestSort cfg k)).map
          (fun r => coercedText r k.propertyKey)).reverse ∧
      ((data.map (fun r => coercedText r k.propertyKey)).Nodup →
        sortedData data (requestSort (requestSort cfg k) k) =
          (sortedData data (requestSort cfg k)).reverse) ∧
      (∀ s : String,
        (sortedData data (requestSort cfg k)).filter
            (fun r => decide (coercedText r k.propertyKey = s)) =
          data.filter (fun r => decide (coercedText r k.propertyKey = s)) ∧
        (sortedData data (requestSort (requestSort cfg k) k)).filter
            (fun r => decide (coercedText r k.propertyKey = s)) =
          data.filter (fun r => decide (coercedText r k.propertyKey = s)))) ∧
    (k.truthy = false →
      sortedData data (requestSort cfg k) = data ∧
        sortedData data (requestSort (requestSort cfg k) k) = data) := by
  rw [requestSort_first cfg k hne, requestSort_second k]
  have hkeyfun : (fun r => coercedText r k.propertyKey) = sortKey ⟨k, "ascending"⟩ := by
    funext r
    exact (sortKey_eq_coercedText ⟨k, "ascending"⟩ r).symm
  constructor
  · intro hk
    have h1 : sortedData data ⟨k, "ascending"⟩ =
        jsSort (compareRows ⟨k, "ascending"⟩) data := by
      simp [sortedData, hk]
    have h2 : sortedData data ⟨k, "descending"⟩ =
        jsSort (compareRows ⟨k, "descending"⟩) data := by
      simp [sortedData, hk]
    refine ⟨?_, ?_, ?_⟩
    · rw [h1, h2, hkeyfun]
      exact sortKeys_descending_eq_reverse data k
    · rw [h1, h2, hkeyfun]
      intro hnodup
      apply map_eq_of_injOn (sortKey ⟨k, "ascending"⟩)
      · intro x hx y hy hxy
        have hx' : x ∈ data := (jsSort_perm _ data).mem_iff.mp hx
        have hy' : y ∈ data := (jsSort_perm _ data).mem_iff.mp (List.mem_reverse.mp hy)
        exact List.inj_on_of_nodup_map hnodup hx' hy' hxy
      · rw [List.map_reverse]
        exact sortKeys_descending_eq_reverse data k
    · intro s
      exact ⟨filter_key_sortedData data ⟨k, "ascending"⟩ s,
        filter_key_sortedData data ⟨k, "descending"⟩ s⟩
  · intro hk
    constructor <;> simp [sortedData, hk]

/-- C2 amended, at two rows with distinct names. -/
theorem requestSort_twice_reverse_witness :
    sortedData [[("name", JSValue.str "Bob")], [("name", JSValue.str "Al")]]
        (requestSort (requestSort ⟨Accessor.key "", ""⟩ (Accessor.key "name"))
          (Accessor.key "name")) =
      (sortedData [[("name", JSValue.str "Bob")], [("name", JSValue.str "Al")]]
        (requestSort ⟨Accessor.key "", ""⟩ (Accessor.key "name"))).reverse :=
  ((requestSort_twice_reverse [[("name", JSValue.str "Bob")], [("name", JSValue.str "Al")]]
    ⟨Accessor.key "", ""⟩ (Accessor.key "name") (by decide)).1 (by decide)).2.1 (by decide)

/-! ## Claims about search and filters -/

theorem sortedData_perm (data : List Row) (cfg : SortConfig) :
    (sortedData data cfg).Perm data := by
  unfold sortedData
  split
  · exact jsSort_perm _ _
  · exact List.Perm.refl _

theorem filterValue_of_mem :
    ∀ (filters : List (String × String)) (k v : String), (objectKeys filters).Nodup →
      (k, v) ∈ filters → filterValue filters k = v
  | [], _, _, _, h => by simp at h
  | (k', v') :: rest, k, v, hnd, h => by
    have hnd' := List.nodup_cons.mp hnd
    rcases List.mem_cons.mp h with h | h
    · have hk : k = k' := congrArg Prod.fst h
      have hv : v = v' := congrArg Prod.snd h
      simp [filterValue, List.lookup, hk, hv]
    · have hne : k ≠ k' := by
        intro hkk
        apply hnd'.1
        rw [← hkk]
        exact List.mem_map.mpr ⟨(k, v), h, rfl⟩
      have ih := filterValue_of_mem rest k v hnd'.2 h
      have hbeq : (k == k') = false := by simp [hne]
      unfold filterValue at ih ⊢
      simp only [List.lookup, hbeq]
      exact ih

theorem filterMatch_eq_all (toLowerCase : String → String) (filters : List (String × String))
    (hkeys : (objectKeys filters).Nodup) (r : Row) :
    filterMatch toLowerCase filters r =
      filters.all (fun kv => includes (toLowerCase (coercedText r kv.1)) (toLowerCase kv.2)) := by
  have hval : ∀ kv ∈ filters, filterValue filters kv.1 = kv.2 :=
    fun kv hkv => filterValue_of_mem filters kv.1 kv.2 hkeys hkv
  apply Bool.eq_iff_iff.mpr
  simp only [filterMatch, objectKeys, filterText, List.all_eq_true, List.mem_map,
    coercedText_eq]
  constructor
  · intro h kv hkv
    have := h kv.1 ⟨kv, hkv, rfl⟩
    rw [hval kv hkv] at this
    exact this
  · rintro h key ⟨kv, hkv, rfl⟩
    rw [hval kv hkv]
    exact h kv hkv

theorem searchMatch_eq_any (toLowerCase : String → String) (columns : List Column)
    (searchTerm : String) (r : Row) :
    searchMatch toLowerCase columns searchTerm r =
      columns.any (fun c =>
        includes (toLowerCase (coercedText r c.accessor.propertyKey))
          (toLowerCase searchTerm)) := by
  unfold searchMatch
  simp only [searchText, coercedText_eq]

theorem filteredData_length (toLowerCase : String → String) (columns : List Column)
    (data : List Row) (cfg : SortConfig) (searchTerm : String)
    (filters : List (String × String)) :
    (filteredData toLowerCase columns data cfg searchTerm filters).length =
      data.countP (fun r =>
        searchMatch toLowerCase columns searchTerm r && filterMatch toLowerCase filters r) := by
  unfold filteredData
  rw [List.filter_filter, ← List.countP_eq_length_filter,
    ← (sortedData_perm data cfg).countP_eq]
  congr 1
  funext r
  exact Bool.and_comm _ _

/-- C3 fails as worded, with the value read as `String(v)` and as empty only when the
field is missing: the search term `0` over the rows `v: 0` and `v: 10` keeps one row
where two satisfy the claimed predicate, and the search term `native` over the empty
row with the column `constructor` keeps the row where none satisfies it. -/
theorem filteredData_length_ne_claimed_count :
    (filteredData asciiLower [⟨Accessor.key "v", "V"⟩]
        [[("v", JSValue.num 0)], [("v", JSValue.num 10)]] ⟨Accessor.key "", ""⟩ "0" []).length ≠
      [[("v", JSValue.num 0)], [("v", JSValue.num 10)]].countP
        (rowSatisfies claimedText asciiLower [⟨Accessor.key "v", "V"⟩] "0" []) ∧
    (filteredData asciiLower [⟨Accessor.key "constructor", "C"⟩] [[]]
        ⟨Accessor.key "", ""⟩ "native" []).length ≠
      [([] : Row)].countP
        (rowSatisfies claimedText asciiLower [⟨Accessor.key "constructor", "C"⟩] "native" []) := by
  decide

/-- C3, amended: the length of `filteredData` is the number of rows of `data` for which
some column's lower-cased text contains the lower-cased search term and, for every
entry of the filter map (an object, so its keys are distinct), the lower-cased text at
its key contains the lower-cased filter value, where the text of a row at a key is the
text of the value read there (own field, else inherited property), empty when nothing
is read or the value is falsy; the length is the same under any two sort
configurations. -/
theorem filteredData_length_eq_count (toLowerCase : String → String) (columns : List Column)
    (data : List Row) (cfg : SortConfig) (searchTerm : String)
    (filters : List (String × String)) (hkeys : (objectKeys filters).Nodup) :
    (filteredData toLowerCase columns data cfg searchTerm filters).length =
        data.countP (rowSatisfies coercedText toLowerCase columns searchTerm filters) ∧
      ∀ cfg' : SortConfig,
        (filteredData toLowerCase columns data cfg' searchTerm filters).length =
          (filteredData toLowerCase columns data cfg searchTerm filters).length := by
  constructor
  · rw [filteredData_length]
    congr 1
    funext r
    rw [searchMatch_eq_any, filterMatch_eq_all toLowerCase filters hkeys]
    rfl
  · intro cfg'
    rw [filteredData_length, filteredData_length]

/-- C3 amended, at the rows Bob and Al filtered on name by "b": one row is left and
counted. -/
theorem filteredData_length_eq_count_witness :
    (filteredData asciiLower [⟨Accessor.key "name", "Name"⟩]
        [[("name", JSValue.str "Bob")], [("name", JSValue.str "Al")]]
        ⟨Accessor.key "name", "descending"⟩ "" [("name", "b")]).length =
      [[("name", JSValue.str "Bob")], [("name", JSValue.str "Al")]].countP
        (rowSatisfies coercedText asciiLower [⟨Accessor.key "name", "Name"⟩] ""
          [("name", "b")]) ∧
    [[("name", JSValue.str "Bob")], [("name", JSValue.str "Al")]].countP
        (rowSatisfies coercedText asciiLower [⟨Accessor.key "name", "Name"⟩] ""
          [("name", "b")]) = 1 :=
  ⟨(filteredData_length_eq_count asciiLower [⟨Accessor.key "name", "Name"⟩]
      [[("name", JSValue.str "Bob")], [("name", JSValue.str "Al")]]
      ⟨Accessor.key "name", "descending"⟩ "" [("name", "b")] (by decide)).1, by decide⟩

theorem includes_empty (s : String) : includes s "" = true := by
  unfold includes
  cases hs : s.data with
  | nil => simp [List.tails, List.isPrefixOf]
  | cons c cs => simp [List.tails, List.isPrefixOf]

/-- C4 fails without columns: `some` over no column is false, so no row is kept. -/
theorem filteredData_no_columns_drops_rows :
    filteredData asciiLower [] [[("name", JSValue.str "Bob")]] ⟨Accessor.key "", ""⟩ "" [] ≠
      sortedData [[("name", JSValue.str "Bob")]] ⟨Accessor.key "", ""⟩ := by
  decide

/-- C4, amended: with at least one column, the empty search term and the empty filter
map, every row is kept: `filteredData` equals `sortedData` and has the length of `data`;
with an empty column list no row is kept, whatever the search term and the filter map.
The empty string is its own lower case. -/
theorem filteredData_empty_criteria (toLowerCase : String → String) (columns : List Column)
    (data : List Row) (cfg : SortConfig) (hlower : toLowerCase "" = "") :
    (columns ≠ [] →
      filteredData toLowerCase columns data cfg "" [] = sortedData data cfg ∧
        (filteredData toLowerCase columns data cfg "" []).length = data.length) ∧
    (∀ (searchTerm : String) (filters : List (String × String)),
      filteredData toLowerCase [] data cfg searchTerm filters = []) := by
  constructor
  · intro hcols
    have hsearch : ∀ r : Row, searchMatch toLowerCase columns "" r = true := by
      intro r
      cases columns with
      | nil => exact absurd rfl hcols
      | cons c cs => simp [searchMatch, hlower, includes_empty]
    have hfilter : ∀ r : Row, filterMatch toLowerCase [] r = true := by
      intro r
      simp [filterMatch, objectKeys]
    have heq : filteredData toLowerCase columns data cfg "" [] = sortedData data cfg := by
      unfold filteredData
      rw [List.filter_eq_self.mpr (fun r _ => hsearch r),
        List.filter_eq_self.mpr (fun r _ => hfilter r)]
    exact ⟨heq, by rw [heq]; exact (sortedData_perm data cfg).length_eq⟩
  · intro searchTerm filters
    unfold filteredData
    have hnone : (sortedData data cfg).filter (searchMatch toLowerCase [] searchTerm) = [] := by
      apply List.filter_eq_nil_iff.mpr
      intro r _
      simp [searchMatch]
    rw [hnone]
    rfl

/-- C4 amended, at one column and two rows. -/
theorem filteredData_empty_criteria_witness :
    filteredData asciiLower [⟨Accessor.key "name", "Name"⟩]
        [[("name", JSValue.str "Bob")], [("name", JSValue.str "Al")]]
        ⟨Accessor.key "name", "ascending"⟩ "" [] =
      [[("name", JSValue.str "Al")], [("name", JSValue.str "Bob")]] := by
  rw [((filteredData_empty_criteria asciiLower [⟨Accessor.key "name", "Name"⟩]
    [[("name", JSValue.str "Bob")], [("name", JSValue.str "Al")]]
    ⟨Accessor.key "name", "ascending"⟩ (by decide)).1 (by decide)).1]
  decide

/-! ## Claims about pagination -/

theorem paginatedData_eq_take_drop (filtered : List Row) (i : Nat) :
    paginatedData filtered ((i : Int) + 1) = (filtered.drop (10 * i)).take 10 := by
  unfold paginatedData slice relativeIndex itemsPerPage
  have h1 : ¬ (((i : Int) + 1 - 1) * ((10 : Nat) : Int) < 0) := by
    push_cast; omega
  have h2 : ¬ (((i : Int) + 1) * ((10 : Nat) : Int) < 0) := by
    push_cast; omega
  have h3 : (((i : Int) + 1 - 1) * ((10 : Nat) : Int)).toNat = 10 * i := by
    push_cast; omega
  have h4 : (((i : Int) + 1) * ((10 : Nat) : Int)).toNat = 10 * i + 10 := by
    push_cast; omega
  rw [if_neg h1, if_neg h2, h3, h4]
  by_cases hlen : filtered.length ≤ 10 * i
  · rw [Nat.min_eq_right hlen, List.drop_of_length_le hlen, List.drop_of_length_le (le_refl _)]
    simp
  · have hlt : 10 * i ≤ filtered.length := by omega
    rw [Nat.min_eq_left hlt]
    by_cases hfull : 10 * i + 10 ≤ filtered.length
    · rw [Nat.min_eq_left hfull]
      congr 1
      omega
    · have hle : filtered.length ≤ 10 * i + 10 := by omega
      rw [Nat.min_eq_right hle]
      have hdl : (filtered.drop (10 * i)).length = filtered.length - 10 * i := by simp
      rw [List.take_of_length_le (by rw [hdl]), List.take_of_length_le (by rw [hdl]; omega)]

theorem pages_concat (filtered : List Row) :
    ∀ n : Nat, (List.range n).flatMap (fun i => paginatedData filtered ((i : Int) + 1)) =
      filtered.take (10 * n)
  | 0 => by simp
  | n + 1 => by
    rw [List.range_succ, List.flatMap_append, pages_concat filtered n]
    simp only [List.flatMap_cons, List.flatMap_nil, List.append_nil]
    rw [paginatedData_eq_take_drop, show 10 * (n + 1) = 10 * n + 10 by omega, List.take_add]

theorem totalPages_eq_ceil (filtered : List Row) :
    totalPages filtered = ⌈(filtered.length : ℚ) / 10⌉₊ := by
  unfold totalPages itemsPerPage
  by_cases h0 : filtered.length = 0
  · simp [h0]
  · have hn : (filtered.length + (10 - 1)) / 10 ≠ 0 := by omega
    symm
    rw [Nat.ceil_eq_iff hn]
    have h1 : ((filtered.length + (10 - 1)) / 10 - 1) * 10 < filtered.length := by omega
    have h2 : filtered.length ≤ (filtered.length + (10 - 1)) / 10 * 10 := by omega
    constructor
    · rw [lt_div_iff₀ (by norm_num : (0 : ℚ) < 10)]
      exact_mod_cast h1
    · rw [div_le_iff₀ (by norm_num : (0 : ℚ) < 10)]
      exact_mod_cast h2

theorem paginatedData_natCast_succ (filtered : List Row) (i : Nat) :
    paginatedData filtered ((i + 1 : Nat) : Int) = (filtered.drop (10 * i)).take 10 := by
  rw [← paginatedData_eq_take_drop]
  congr 1

/-- C5: `totalPages` is the number of rows divided by 10 and rounded up; the pages
`1..totalPages` concatenated in order give the filtered sequence; every page before the
last has 10 rows and the last has between 1 and 10; 25 rows give 3 pages of 10, 10 and
5 rows; and page 1 is the first 10 rows. -/
theorem pagination_partition (filtered : List Row) :
    totalPages filtered = ⌈(filtered.length : ℚ) / 10⌉₊ ∧
    (List.range (totalPages filtered)).flatMap
        (fun i => paginatedData filtered ((i : Int) + 1)) = filtered ∧
    (∀ p : Nat, 1 ≤ p → p < totalPages filtered →
      (paginatedData filtered (p : Int)).length = 10) ∧
    (0 < totalPages filtered →
      1 ≤ (paginatedData filtered (totalPages filtered : Int)).length ∧
        (paginatedData filtered (totalPages filtered : Int)).length ≤ 10) ∧
    (filtered.length = 25 →
      totalPages filtered = 3 ∧ (paginatedData filtered 1).length = 10 ∧
        (paginatedData filtered 2).length = 10 ∧ (paginatedData filtered 3).length = 5) ∧
    paginatedData filtered 1 = filtered.take 10 := by
  have hpage : ∀ i : Nat, (paginatedData filtered ((i + 1 : Nat) : Int)).length =
      min 10 (filtered.length - 10 * i) := by
    intro i
    rw [paginatedData_natCast_succ]
    simp
  refine ⟨totalPages_eq_ceil filtered, ?_, ?_, ?_, ?_, ?_⟩
  · rw [pages_concat]
    apply List.take_of_length_le
    unfold totalPages itemsPerPage
    omega
  · intro p hp hlt
    obtain ⟨i, rfl⟩ : ∃ i, p = i + 1 := ⟨p - 1, by omega⟩
    rw [hpage]
    unfold totalPages itemsPerPage at hlt
    omega
  · intro hpos
    obtain ⟨i, hi⟩ : ∃ i, totalPages filtered = i + 1 := ⟨totalPages filtered - 1, by omega⟩
    rw [hi, hpage]
    unfold totalPages itemsPerPage at hi
    omega
  · intro h25
    have ht : totalPages filtered = 3 := by
      unfold totalPages itemsPerPage
      omega
    have h1 := hpage 0
    have h2 := hpage 1
    have h3 := hpage 2
    rw [h25] at h1 h2 h3
    exact ⟨ht, h1, h2, h3⟩
  · have := paginatedData_natCast_succ filtered 0
    simpa using this

/-- C5 at 25 copies of one row: three pages of 10, 10 and 5 rows. -/
theorem pagination_partition_witness :
    totalPages (List.replicate 25 [("name", JSValue.str "Bob")]) = 3 ∧
    (paginatedData (List.replicate 25 [("name", JSValue.str "Bob")]) 1).length = 10 ∧
    (paginatedData (List.replicate 25 [("name", JSValue.str "Bob")]) 2).length = 10 ∧
    (paginatedData (List.replicate 25 [("name", JSValue.str "Bob")]) 3).length = 5 :=
  (pagination_partition (List.replicate 25 [("name", JSValue.str "Bob")])).2.2.2.2.1
    (by decide)

/-- C6 fails when nothing matches: the page is reset to 1 while `totalPages` is 0. -/
theorem handleSearch_page_above_totalPages :
    ¬ (1 ≤ (handleSearch (initialState [⟨Accessor.key "name", "Name"⟩]) "zzz").currentPage ∧
      (handleSearch (initialState [⟨Accessor.key "name", "Name"⟩]) "zzz").currentPage ≤
        (totalPages (filteredDataOf asciiLower [⟨Accessor.key "name", "Name"⟩]
          [[("name", JSValue.str "Bob")]]
          (handleSearch (initialState [⟨Accessor.key "name", "Name"⟩]) "zzz")) : Int)) := by
  decide

theorem one_le_totalPages_iff (filtered : List Row) :
    (1 : Int) ≤ (totalPages filtered : Int) ↔ filtered ≠ [] := by
  unfold totalPages itemsPerPage
  rw [← List.length_pos]
  omega

/-- C6, amended: after `handleSearch` and after `handleFilterChange` the current page
is 1, and it lies within `[1, totalPages]` of the new search term and filter map exactly
when the new `filteredData` is not empty. -/
theorem page_after_search_or_filter (toLowerCase : String → String) (columns : List Column)
    (data : List Row) (st : State) (column : Accessor) (value : String) :
    (handleSearch st value).currentPage = 1 ∧
    (handleFilterChange st column value).currentPage = 1 ∧
    ((1 ≤ (handleSearch st value).currentPage ∧
        (handleSearch st value).currentPage ≤
          (totalPages (filteredDataOf toLowerCase columns data (handleSearch st value)) : Int)) ↔
      filteredDataOf toLowerCase columns data (handleSearch st value) ≠ []) ∧
    ((1 ≤ (handleFilterChange st column value).currentPage ∧
        (handleFilterChange st column value).currentPage ≤
          (totalPages (filteredDataOf toLowerCase columns data
            (handleFilterChange st column value)) : Int)) ↔
      filteredDataOf toLowerCase columns data (handleFilterChange st column value) ≠ []) := by
  have h1 : (handleSearch st value).currentPage = 1 := rfl
  have h2 : (handleFilterChange st column value).currentPage = 1 := rfl
  refine ⟨h1, h2, ?_, ?_⟩
  · rw [h1, ← one_le_totalPages_iff]
    constructor
    · exact fun h => h.2
    · exact fun h => ⟨le_refl _, h⟩
  · rw [h2, ← one_le_totalPages_iff]
    constructor
    · exact fun h => h.2
    · exact fun h => ⟨le_refl _, h⟩

/-! ## Claims about the column list -/

theorem relativeIndex_natCast (len i : Nat) (h : i ≤ len) : relativeIndex len (i : Int) = i := by
  unfold relativeIndex
  have h0 : ¬ ((i : Int) < 0) := by omega
  rw [if_neg h0, Int.toNat_ofNat, Nat.min_eq_left h]

theorem insert_at_index {α : Type} (l : List α) (j : Nat) (hj : j ≤ l.length) (x : α) :
    (l.take j ++ [x] ++ l.drop j).length = l.length + 1 ∧
    (l.take j ++ [x] ++ l.drop j)[j]? = some x ∧
    (l.take j ++ [x] ++ l.drop j).eraseIdx j = l ∧
    (l.take j ++ [x] ++ l.drop j).Perm (x :: l) := by
  have hlen : (l.take j).length = j := by simp [hj]
  refine ⟨?_, ?_, ?_, ?_⟩
  · simp; omega
  · rw [List.append_assoc, List.getElem?_append_right (by omega)]
    simp [hlen]
  · rw [List.append_assoc, List.eraseIdx_append_of_length_le (by omega)]
    simp [hlen]
  · rw [List.append_assoc]
    have := @List.perm_middle _ x (l.take j) (l.drop j)
    simpa using this

theorem perm_cons_eraseIdx {α : Type} (l : List α) (i : Nat) (h : i < l.length) :
    (l[i] :: l.eraseIdx i).Perm l := by
  rw [List.eraseIdx_eq_take_drop_succ]
  have hsplit : l = l.take i ++ l[i] :: l.drop (i + 1) := by
    conv_lhs => rw [← List.take_append_drop i l]
    rw [List.drop_eq_getElem_cons h]
  conv_rhs => rw [hsplit]
  exact List.perm_middle.symm

theorem splice_remove_one {α : Type} (l : List α) (i : Nat) (h : i < l.length) :
    splice l (i : Int) 1 [] = ([l[i]], l.eraseIdx i) := by
  unfold splice
  rw [relativeIndex_natCast l.length i (le_of_lt h)]
  have hd : min (max (1 : Int) 0).toNat (l.length - i) = 1 := by
    have : (max (1 : Int) 0).toNat = 1 := by decide
    rw [this]
    omega
  simp only [hd]
  rw [List.eraseIdx_eq_take_drop_succ, List.append_nil]
  congr 1
  rw [List.drop_eq_getElem_cons h]
  rfl

theorem splice_insert_one {α : Type} (l : List α) (j : Nat) (h : j ≤ l.length) (x : α) :
    (splice l (j : Int) 0 [x]).2 = l.take j ++ [x] ++ l.drop j := by
  unfold splice
  rw [relativeIndex_natCast l.length j h]
  have hd : min (max (0 : Int) 0).toNat (l.length - j) = 0 := by
    have : (max (0 : Int) 0).toNat = 0 := by decide
    rw [this]
    omega
  simp only [hd, Nat.add_zero]

/-- C7: for source and destination indices inside the column list, `onDragEnd` yields a
list of the same length whose element at the destination index is the original element
at the source index and whose other elements are the original list without that
element, in the original order, hence a permutation of the original; a drop without a
destination leaves the column order unchanged. -/
theorem onDragEnd_moves (orderedColumns : List Column) (i j : Nat)
    (hi : i < orderedColumns.length) (hj : j < orderedColumns.length) :
    (∃ res : List Column,
      onDragEnd orderedColumns ⟨⟨(i : Int)⟩, some ⟨(j : Int)⟩⟩ = some res ∧
      res.length = orderedColumns.length ∧
      res[j]? = orderedColumns[i]? ∧
      res.eraseIdx j = orderedColumns.eraseIdx i ∧
      res.Perm orderedColumns) ∧
    ∀ source : DragLocation, onDragEnd orderedColumns ⟨source, none⟩ = some orderedColumns := by
  constructor
  · have hlen : (orderedColumns.eraseIdx i).length = orderedColumns.length - 1 := by
      rw [List.length_eraseIdx, if_pos hi]
    have hj' : j ≤ (orderedColumns.eraseIdx i).length := by omega
    obtain ⟨h1, h2, h3, h4⟩ := insert_at_index (orderedColumns.eraseIdx i) j hj' orderedColumns[i]
    refine ⟨(orderedColumns.eraseIdx i).take j ++ [orderedColumns[i]] ++
      (orderedColumns.eraseIdx i).drop j, ?_, ?_, ?_, h3, ?_⟩
    · unfold onDragEnd
      simp only [splice_remove_one orderedColumns i hi, List.head?_cons,
        splice_insert_one _ j hj']
    · rw [h1, hlen]; omega
    · rw [h2, List.getElem?_eq_getElem hi]
    · exact h4.trans (perm_cons_eraseIdx orderedColumns i hi)
  · intro source
    rfl

/-- C7 at three columns: the first is dropped on the last position. -/
theorem onDragEnd_moves_witness :
    onDragEnd [⟨Accessor.key "a", "A"⟩, ⟨Accessor.key "b", "B"⟩, ⟨Accessor.key "c", "C"⟩]
        ⟨⟨0⟩, some ⟨2⟩⟩ =
      some [⟨Accessor.key "b", "B"⟩, ⟨Accessor.key "c", "C"⟩, ⟨Accessor.key "a", "A"⟩] ∧
    ∀ source : DragLocation,
      onDragEnd [⟨Accessor.key "a", "A"⟩, ⟨Accessor.key "b", "B"⟩, ⟨Accessor.key "c", "C"⟩]
        ⟨source, none⟩ =
      some [⟨Accessor.key "a", "A"⟩, ⟨Accessor.key "b", "B"⟩, ⟨Accessor.key "c", "C"⟩] :=
  ⟨by decide,
    (onDragEnd_moves
      [⟨Accessor.key "a", "A"⟩, ⟨Accessor.key "b", "B"⟩, ⟨Accessor.key "c", "C"⟩] 0 2
      (by decide) (by decide)).2⟩

/-- C8: toggling the same accessor twice gives a list with the membership of the
original: every accessor is in the result exactly when it is in the original list. -/
theorem handleColumnVisibilityChange_twice (v : List Accessor) (a x : Accessor) :
    x ∈ handleColumnVisibilityChange (handleColumnVisibilityChange v a) a ↔ x ∈ v := by
  unfold handleColumnVisibilityChange
  by_cases ha : a ∈ v
  · have h1 : v.contains a = true := by simpa using ha
    have h2 : (v.filter (fun col => col != a)).contains a = false := by simp
    simp only [h1, h2, if_true]
    by_cases hx : x = a
    · simp [hx, ha]
    · simp [hx]
  · have h1 : v.contains a = false := by simpa using ha
    have h2 : (v ++ [a]).contains a = true := by simp
    simp only [h1, h2, if_true]
    by_cases hx : x = a
    · simp [hx, ha]
    · simp [hx]

/-! ## Claims about the CSV export and falsy fields -/

theorem flatMap_quotes_eq_doubleQuotes :
    ∀ l : List Char,
      l.flatMap (fun c => if c = Char.ofNat 34 then [c, c] else [c]) = doubleQuotes l
  | [] => rfl
  | c :: cs => by
    rw [List.flatMap_cons, flatMap_quotes_eq_doubleQuotes cs]
    by_cases h : c = Char.ofNat 34
    · simp [doubleQuotes, h]
    · simp [doubleQuotes, h]

theorem csvCell_eq (row : Row) (col : Column) :
    csvCell row col =
      String.mk (doubleQuotes (coercedText row col.accessor.propertyKey).data) := by
  unfold csvCell replaceQuotes
  rw [flatMap_quotes_eq_doubleQuotes, coercedText_eq]

theorem visible_filter_eq (orderedColumns : List Column) (visibleColumns : List Accessor) :
    orderedColumns.filter (fun col => visibleColumns.contains col.accessor) =
      visibleInOrder orderedColumns visibleColumns := by
  unfold visibleInOrder
  congr 1
  funext col
  simp

/-- C9 fails as worded, with the value read as `String(v)` and as empty only when the
field is missing: a row whose age is `0` exports an empty cell where the claim gives
`0`, and the empty row under the column `constructor` exports the text of the inherited
function where the claim gives an empty cell. -/
theorem exportToCSV_ne_claimed_csv :
    exportToCSV (initialState [⟨Accessor.key "age", "Age"⟩]) [[("age", JSValue.num 0)], []] ≠
      csvSpec claimedText [⟨Accessor.key "age", "Age"⟩] [Accessor.key "age"]
        [[("age", JSValue.num 0)], []] ∧
    exportToCSV (initialState [⟨Accessor.key "constructor", "C"⟩]) [[]] ≠
      csvSpec claimedText [⟨Accessor.key "constructor", "C"⟩] [Accessor.key "constructor"]
        [[]] ∧
    (exportToCSV (initialState [⟨Accessor.key "age", "Age"⟩]) [[("age", JSValue.num 0)], []] =
        "Age\n\n" ∧
      csvSpec claimedText [⟨Accessor.key "age", "Age"⟩] [Accessor.key "age"]
        [[("age", JSValue.num 0)], []] = "Age\n0\n") ∧
    (exportToCSV (initialState [⟨Accessor.key "constructor", "C"⟩]) [[]] =
        "C\nfunction Object() \x7b [native code] \x7d" ∧
      csvSpec claimedText [⟨Accessor.key "constructor", "C"⟩] [Accessor.key "constructor"]
        [[]] = "C\n") := by
  decide

/-- C9, amended: the CSV text is the newline-join of the comma-joined labels of the
visible columns in display order and, per row of the input data in input order, the
comma-joined texts at those columns with every double quote doubled, where the text of
a row at a column is the text of the value read there (own field, else inherited
property), empty when nothing is read or the value is falsy; it does not depend on the
sort configuration, the search term, the filter map or the current page; and the
two-column, two-row example gives `Name,Age`, `Bob,30` and `Al,`. -/
theorem exportToCSV_eq_csvSpec (st : State) (data : List Row) :
    exportToCSV st data = csvSpec coercedText st.orderedColumns st.visibleColumns data ∧
    (∀ (cfg : SortConfig) (searchTerm : String) (filters : List (String × String))
        (page : Int),
      exportToCSV { st with sortConfig := cfg, searchTerm := searchTerm,
                            filters := filters, currentPage := page } data =
        exportToCSV st data) ∧
    exportToCSV
        (initialState [⟨Accessor.key "name", "Name"⟩, ⟨Accessor.key "age", "Age"⟩])
        [[("name", JSValue.str "Bob"), ("age", JSValue.num 30)],
          [("name", JSValue.str "Al")]] =
      "Name,Age\nBob,30\nAl," := by
  refine ⟨?_, ?_, by decide⟩
  · unfold exportToCSV csvSpec csvHeaderLine csvRowLine
    simp only [visible_filter_eq, csvCell_eq]
  · intro cfg searchTerm filters page
    rfl

/-- C10 fails for an inherited key: a row whose field `constructor` holds `0` gives the
empty string as sort key, cell text and exported cell, while a row without the field
gives the text of the inherited function, so the two are not the same. -/
theorem falsy_field_differs_from_missing_inherited :
    sortKey ⟨Accessor.key "constructor", "ascending"⟩ [("constructor", JSValue.num 0)] ≠
      sortKey ⟨Accessor.key "constructor", "ascending"⟩ [] ∧
    cellText (fun _ _ => "") [("constructor", JSValue.num 0)]
        ⟨Accessor.key "constructor", "C"⟩ ≠
      cellText (fun _ _ => "") [] ⟨Accessor.key "constructor", "C"⟩ ∧
    csvCell [("constructor", JSValue.num 0)] ⟨Accessor.key "constructor", "C"⟩ ≠
      csvCell [] ⟨Accessor.key "constructor", "C"⟩ ∧
    csvCell [] ⟨Accessor.key "constructor", "C"⟩ =
      "function Object() \x7b [native code] \x7d" := by
  decide

/-- C10, amended: a field that holds `0`, `false` or the empty string gives the empty
string as sort key, as search and filter text, as cell text and as exported cell. A row
in which the field is missing gives the same five empty texts when the key is not a
property inherited from `Object.prototype`, and for an inherited key it gives the texts
of the inherited value. The empty string is its own lower case. -/
theorem falsy_field_reads_as_missing (toLowerCase : String → String)
    (callAccessor : Nat → Row → String) (r r' : Row) (k d header : String) (v : JSValue)
    (hlower : toLowerCase "" = "")
    (hv : v = JSValue.num 0 ∨ v = JSValue.bool false ∨ v = JSValue.str "")
    (hr : r.lookup k = some v) (hmissing : r'.lookup k = none) :
    (sortKey ⟨Accessor.key k, d⟩ r = "" ∧
      searchText toLowerCase r ⟨Accessor.key k, header⟩ = "" ∧
      filterText toLowerCase r k = "" ∧
      cellText callAccessor r ⟨Accessor.key k, header⟩ = "" ∧
      csvCell r ⟨Accessor.key k, header⟩ = "") ∧
    (objectPrototype.lookup k = none →
      sortKey ⟨Accessor.key k, d⟩ r' = "" ∧
      searchText toLowerCase r' ⟨Accessor.key k, header⟩ = "" ∧
      filterText toLowerCase r' k = "" ∧
      cellText callAccessor r' ⟨Accessor.key k, header⟩ = "" ∧
      csvCell r' ⟨Accessor.key k, header⟩ = "") ∧
    (∀ p : JSValue, objectPrototype.lookup k = some p →
      sortKey ⟨Accessor.key k, d⟩ r' = jsToString (orEmpty p) ∧
      searchText toLowerCase r' ⟨Accessor.key k, header⟩ =
        toLowerCase (jsToString (orEmpty p)) ∧
      filterText toLowerCase r' k = toLowerCase (jsToString (orEmpty p)) ∧
      cellText callAccessor r' ⟨Accessor.key k, header⟩ = jsToString (orEmpty p) ∧
      csvCell r' ⟨Accessor.key k, header⟩ = replaceQuotes (jsToString (orEmpty p))) := by
  have hval : jsToString (orEmpty (r.get k)) = "" := by
    unfold Row.get
    rw [hr]
    rcases hv with h | h | h <;> rw [h] <;> rfl
  have hq : replaceQuotes "" = "" := rfl
  refine ⟨⟨?_, ?_, ?_, ?_, ?_⟩, ?_, ?_⟩
  · exact hval
  · show toLowerCase (jsToString (orEmpty (r.get k))) = ""
    rw [hval, hlower]
  · show toLowerCase (jsToString (orEmpty (r.get k))) = ""
    rw [hval, hlower]
  · exact hval
  · show replaceQuotes (jsToString (orEmpty (r.get k))) = ""
    rw [hval, hq]
  · intro hproto
    have hval' : jsToString (orEmpty (r'.get k)) = "" := by
      unfold Row.get
      rw [hmissing, hproto]
      rfl
    refine ⟨hval', ?_, ?_, hval', ?_⟩
    · show toLowerCase (jsToString (orEmpty (r'.get k))) = ""
      rw [hval', hlower]
    · show toLowerCase (jsToString (orEmpty (r'.get k))) = ""
      rw [hval', hlower]
    · show replaceQuotes (jsToString (orEmpty (r'.get k))) = ""
      rw [hval', hq]
  · intro p hproto
    have hget : r'.get k = p := by
      unfold Row.get
      rw [hmissing, hproto]
    refine ⟨?_, ?_, ?_, ?_, ?_⟩
    · show jsToString (orEmpty (r'.get k)) = _
      rw [hget]
    · show toLowerCase (jsToString (orEmpty (r'.get k))) = _
      rw [hget]
    · show toLowerCase (jsToString (orEmpty (r'.get k))) = _
      rw [hget]
    · show jsToString (orEmpty (r'.get k)) = _
      rw [hget]
    · show replaceQuotes (jsToString (orEmpty (r'.get k))) = _
      rw [hget]

/-- C10 amended, at a row whose age is `0`, next to the empty row. -/
theorem falsy_field_reads_as_missing_witness :
    sortKey ⟨Accessor.key "age", "ascending"⟩ [("age", JSValue.num 0)] = "" ∧
    csvCell [("age", JSValue.num 0)] ⟨Accessor.key "age", "Age"⟩ = "" ∧
    csvCell [] ⟨Accessor.key "age", "Age"⟩ = "" :=
  have h := falsy_field_reads_as_missing asciiLower (fun _ _ => "") [("age", JSValue.num 0)] []
    "age" "ascending" "Age" (JSValue.num 0) (by decide) (Or.inl rfl) (by decide) (by decide)
  ⟨h.1.1, h.1.2.2.2.2, (h.2.1 (by decide)).2.2.2.2⟩

end AbstractTable
